import Mathlib

/-!
Verification of the cling `InputValidator` (lib/MetaProcessor/InputValidator.cpp).

The validator consumes one physical line per call to `validate`, maintaining a
nesting stack of open-context markers (`m_ParenStack`, a `std::deque<int>` whose
`back()` is the top — modelled here as a `List Int` whose head is the top, so
`push_back` is `cons`, `pop_back` is `tail` and `back()` is `head`) and a
logical buffer `m_Input` accumulating the lines of the current statement.

The token kinds come from the external `MetaLexer`; its header is not part of
the sources here, so the kind ordinals are fixed from the spec: the six bracket
kinds occupy ordinals 0..5 with each opener at an even position and its closer
at opener+1, and the two literal-start kinds are adjacent at 6 and 7.  The
remaining ordinals (slash, asterisk, hash, other) only need to be distinct and
outside 0..7; end-of-file is represented by running out of characters.
-/

namespace Cling

namespace tok

def l_square : Int := 0

def r_square : Int := 1

def l_paren : Int := 2

def r_paren : Int := 3

def l_brace : Int := 4

def r_brace : Int := 5

def stringlit : Int := 6

def charlit : Int := 7

def slash : Int := 9

def asterik : Int := 10

def hash : Int := 11

def unknown : Int := 12

end tok

/-- The three-way outcome of `InputValidator::validate`. -/
inductive ValidationResult
  | kComplete
  | kIncomplete
  | kMismatch
  deriving DecidableEq, Repr

/-- The persistent fields of an `InputValidator`: the nesting stack
`m_ParenStack` (head = deque back = top) and the logical buffer `m_Input`. -/
structure VState where
  m_ParenStack : List Int
  m_Input : List Char
  deriving DecidableEq, Repr

/-- Modelled from the spec: a freshly constructed validator (the class header is
not among the sources); per the spec one instance serves a session and the
stack and buffer live only since the last reset, so both start empty. -/
def initialState : VState := ⟨[], []⟩

/-- `InputValidator::inBlockComment`: `std::find` of `tok::slash` over the
whole stack, i.e. membership anywhere, not just at the top. -/
def inBlockComment (st : VState) : Bool :=
  decide (tok.slash ∈ st.m_ParenStack)

/-- `unwindTokens(queue, tok)`: pop until (and including) the first occurrence
of `tok` from the back.  The C++ asserts the deque is non-empty before every
pop; popping past the end is modelled as `none`. -/
def unwindTokens : List Int → Int → Option (List Int)
  | [], _ => none
  | t :: ts, tokv => if t = tokv then some ts else unwindTokens ts tokv

/-- Backward phase of `findNestedBlockComments`: scan from `endPos` down while
`endPos > startPos`, classifying trailing block-comment delimiters.  The C++
reuses the `char commentTok` variable both as the counter left by the forward
phase (value 2 on entry) and to hold the character codes of `/` (47) and `*`
(42); reads are via `getD` with a NUL default, mirroring the terminator byte
the raw pointer scan can touch one past the range. -/
def fnbcBack (cs : List Char) (startPos : Nat) (endPos : Nat) (commentTok : Nat) : Int :=
  if startPos < endPos then
    let c := cs.getD endPos '\x00'
    if c = '*' then
      if commentTok = 42 then -1
      else fnbcBack cs startPos (endPos - 1) 47
    else if c = '/' then
      if commentTok = 47 then 1
      else fnbcBack cs startPos (endPos - 1) 42
    else fnbcBack cs startPos (endPos - 1) 0
  else 0
termination_by endPos
decreasing_by all_goals omega

/-- `findNestedBlockComments(startPos, endPos)`: search forward for a double
slash, then backward from the end for the last block-comment delimiter.
Returns -1 when the comment has ended, 1 when one has begun, 0 otherwise. -/
def findNestedBlockComments (cs : List Char) (startPos : Nat) (endPos : Nat)
    (commentTok : Nat) : Int :=
  if startPos < endPos then
    if cs.getD startPos '\x00' = '/' then
      if commentTok + 1 = 2 then fnbcBack cs startPos endPos 2
      else findNestedBlockComments cs (startPos + 1) endPos (commentTok + 1)
    else if commentTok ≠ 0 then findNestedBlockComments cs (startPos + 1) endPos 0
    else findNestedBlockComments cs (startPos + 1) endPos commentTok
  else 0
termination_by endPos - startPos
decreasing_by all_goals omega

/-- Modelled from the spec: the kind `MetaLexer` assigns to a punctuator
character (the lexer sources are not in the repository slice).  The spec fixes
the bracket ordinals (openers even, closer at opener+1), the adjacent literal
kinds, and the existence of slash, asterisk, hash and an "other" kind. -/
def lexKind (c : Char) : Int :=
  if c = '[' then tok.l_square
  else if c = ']' then tok.r_square
  else if c = '(' then tok.l_paren
  else if c = ')' then tok.r_paren
  else if c = '\x7b' then tok.l_brace
  else if c = '\x7d' then tok.r_brace
  else if c = '"' then tok.stringlit
  else if c = '\'' then tok.charlit
  else if c = '/' then tok.slash
  else if c = '*' then tok.asterik
  else if c = '#' then tok.hash
  else tok.unknown

/-- Modelled from the spec: `MetaLexer::LexQuotedStringAndAdvance` (not in the
repository slice) advances the cursor past a string/char literal including its
closing quote if present on the line; the cursor enters just after the opening
quote.  Returns the remaining characters of the line. -/
def lexQuotedStringAndAdvance (quote : Char) : List Char → List Char
  | [] => []
  | c :: cs => if c = quote then cs else lexQuotedStringAndAdvance quote cs

/-- The digraph-cursor bookkeeping at the top of the non-matching branch
(lines 147-152): when inside a comment and waiting for the closing slash, any
token other than an asterisk cancels the wait. -/
def nextCommentTok (mlc : Bool) (commentTok kind : Int) : Int :=
  if mlc ∧ commentTok = tok.slash ∧ kind ≠ tok.asterik then tok.asterik else commentTok

/-- The quote character that opened a literal of the given kind. -/
def quoteChar (kind : Int) : Char :=
  if kind = tok.stringlit then '"' else '\''

theorem lexQuotedStringAndAdvance_length_le (quote : Char) (cs : List Char) :
    (lexQuotedStringAndAdvance quote cs).length ≤ cs.length := by
  induction cs with
  | nil => simp [lexQuotedStringAndAdvance]
  | cons c cs ih =>
    simp only [lexQuotedStringAndAdvance]
    split
    · simp
    · simp; omega

/-- The token loop of `InputValidator::validate` (the do-while over
`LexPunctuatorAndAdvance`).  Arguments mirror the loop state: the stack, the
local `multilineComment` flag, the digraph cursor `commentTok`, and the rest of
the line (running out of characters is the `tok::eof` case, whose token range
`[prevStart, curPos)` is then empty).  Returns the stack after the loop and
whether the loop broke with `Res = kMismatch`; `none` models a failed
`assert` inside `unwindTokens` (or the unreachable `assert(0)` default of the
nested-comment switch). -/
def validateLoop (pstack : List Int) (mlc : Bool) (commentTok : Int) :
    List Char → Option (List Int × Bool)
  | [] =>
    if mlc then
      let r := findNestedBlockComments [] 0 0 0
      if r = -1 then
        match unwindTokens pstack tok.slash with
        | none => none
        | some s => some (s, false)
      else if r = 1 ∨ r = 0 then some (pstack, false)
      else none
    else some (pstack, false)
  | c :: rest =>
    let kind := lexKind c
    if kind = commentTok then
      if kind = tok.slash then
        if mlc then
          match unwindTokens pstack tok.slash with
          | none => none
          | some s => validateLoop s false tok.slash rest
        else validateLoop pstack mlc tok.asterik rest
      else
        if mlc = false then validateLoop (tok.slash :: pstack) true commentTok rest
        else validateLoop pstack mlc tok.slash rest
    else
      let ct2 := nextCommentTok mlc commentTok kind
      if 0 ≤ kind ∧ kind ≤ 5 then
        if kind % 2 = 1 then
          if pstack.headD (-1) ≠ kind - 1 then
            if mlc then validateLoop pstack mlc ct2 rest
            else some (pstack, true)
          else validateLoop pstack.tail mlc ct2 rest
        else validateLoop (kind :: pstack) mlc ct2 rest
      else if kind = tok.stringlit ∨ kind = tok.charlit then
        validateLoop pstack mlc ct2 (lexQuotedStringAndAdvance (quoteChar kind) rest)
      else validateLoop pstack mlc ct2 rest
termination_by cs => cs.length
decreasing_by
  all_goals simp only [List.length_cons]
  all_goals first
    | omega
    | exact Nat.lt_succ_of_le (lexQuotedStringAndAdvance_length_le _ _)

/-- The scan phase of `validate`: derive `multilineComment` from the stack,
initialise the digraph cursor accordingly, and run the token loop. -/
def validateScan (st : VState) (line : List Char) : Option (List Int × Bool) :=
  validateLoop st.m_ParenStack (inBlockComment st)
    (if inBlockComment st then tok.asterik else tok.slash) line

/-- The line-join step at the end of `validate` (lines 181-191): append a real
newline, or the two-character escaped marker when the stack top is a literal
kind, then the line itself; an empty buffer is reassigned empty first. -/
def appendInput (input : List Char) (pstack : List Int) (line : List Char) : List Char :=
  (if input ≠ [] then
      if pstack ≠ [] ∧ (pstack.headD (-1) = tok.stringlit ∨ pstack.headD (-1) = tok.charlit)
      then input ++ ['\\', 'n']
      else input ++ ['\n']
    else []) ++ line

/-- `InputValidator::validate`: run the scan, classify the result (`Res` is
`kMismatch` only via the mid-line break; afterwards a non-empty stack turns a
non-mismatch into `kIncomplete`), and append the line to the buffer. -/
def validate (st : VState) (line : List Char) : Option (ValidationResult × VState) :=
  match validateScan st line with
  | none => none
  | some (pstack, mismatch) =>
    let res0 := if mismatch then ValidationResult.kMismatch else ValidationResult.kComplete
    let res := if pstack ≠ [] ∧ res0 ≠ ValidationResult.kMismatch then
                 ValidationResult.kIncomplete
               else res0
    some (res, ⟨pstack, appendInput st.m_Input pstack line⟩)

/-- `InputValidator::reset`: clear the buffer and the stack. -/
def reset (_st : VState) : VState := ⟨[], []⟩

/-- The scan broke out of the loop with a mismatch: the formal counterpart of
"a bracket mismatch was detected while scanning the line". -/
def scanMismatch (st : VState) (line : List Char) : Prop :=
  ∃ p, validateScan st line = some (p, true)

/-! ## Helper lemmas -/

theorem unwindTokens_isSome {s : List Int} {t : Int} (h : t ∈ s) :
    (unwindTokens s t).isSome := by
  induction s with
  | nil => simp at h
  | cons a s ih =>
    simp only [unwindTokens]
    rcases List.mem_cons.mp h with h1 | h1
    · simp [h1]
    · split
      · simp
      · exact ih h1

theorem unwindTokens_append {junk rest : List Int} {t : Int} (h : t ∉ junk) :
    unwindTokens (junk ++ t :: rest) t = some rest := by
  induction junk with
  | nil => simp [unwindTokens]
  | cons a junk ih =>
    simp only [List.cons_append, unwindTokens]
    rw [if_neg]
    · exact ih (fun hm => h (List.mem_cons_of_mem a hm))
    · intro he
      exact h (he ▸ List.mem_cons_self a junk)

theorem fnbc_empty : findNestedBlockComments [] 0 0 0 = 0 := by
  rw [findNestedBlockComments.eq_def]
  simp

/-- The loop invariant that keeps every `unwindTokens` call safe: whenever the
local `multilineComment` flag is set, the in-block-comment marker `tok::slash`
is on the stack, so the loop can never hit the empty-stack assertion. -/
theorem validateLoop_isSome (pstack : List Int) (mlc : Bool) (ct : Int) (cs : List Char)
    (inv : mlc = true → tok.slash ∈ pstack) :
    (validateLoop pstack mlc ct cs).isSome := by
  induction pstack, mlc, ct, cs using validateLoop.induct with
  | case1 pstack ct r hr hnone =>
    have h0 : findNestedBlockComments [] 0 0 0 = -1 := hr
    rw [fnbc_empty] at h0
    exact absurd h0 (by decide)
  | case2 pstack ct r hr s hs =>
    have h0 : findNestedBlockComments [] 0 0 0 = -1 := hr
    rw [fnbc_empty] at h0
    exact absurd h0 (by decide)
  | case3 pstack ct r hr hr2 =>
    rw [validateLoop.eq_def]
    simp [fnbc_empty]
  | case4 pstack ct r hr hr2 =>
    have h0 : ¬(findNestedBlockComments [] 0 0 0 = 1 ∨ findNestedBlockComments [] 0 0 0 = 0) :=
      hr2
    rw [fnbc_empty] at h0
    simp at h0
  | case5 pstack mlc ct hm =>
    rw [validateLoop.eq_def]
    simp [hm]
  | case6 pstack c cs kind hk hnone =>
    have hmem := unwindTokens_isSome (inv rfl)
    have h0 : unwindTokens pstack tok.slash = none := hnone
    rw [h0] at hmem
    simp at hmem
  | case7 pstack c cs kind hk s hs ih =>
    have hs' : unwindTokens pstack tok.slash = some s := hs
    rw [validateLoop.eq_def]
    simp [show lexKind c = kind from rfl, hk, hs']
    simpa using ih (by simp)
  | case8 pstack mlc c cs kind hk hm ih =>
    have hm2 : mlc = false := by simpa using hm
    subst hm2
    rw [validateLoop.eq_def]
    simp [show lexKind c = kind from rfl, hk]
    simpa using ih (by simp)
  | case9 pstack c cs kind hk ih =>
    rw [validateLoop.eq_def]
    simp [show lexKind c = kind from rfl, hk]
    simpa using ih (by simp)
  | case10 pstack mlc c cs kind hk hm ih =>
    have hm2 : mlc = true := by simpa using hm
    subst hm2
    rw [validateLoop.eq_def]
    simp [show lexKind c = kind from rfl, hk]
    simpa using ih inv
  | case11 pstack ct c cs kind hk hbr hodd hprev ct2 ih =>
    rw [validateLoop.eq_def]
    simp only [show lexKind c = kind from rfl, if_neg hk, if_pos hbr, if_pos hodd, if_pos hprev]
    exact ih inv
  | case12 pstack mlc ct c cs kind hk hbr hodd hprev hm =>
    have hm2 : mlc = false := by simpa using hm
    subst hm2
    rw [validateLoop.eq_def]
    simp only [show lexKind c = kind from rfl, if_neg hk, if_pos hbr, if_pos hodd, if_pos hprev]
    simp
  | case13 pstack mlc ct c cs kind hk ct2 hbr hodd hprev ih =>
    have hprev2 : pstack.headD (-1) = kind - 1 := by
      by_contra hco
      exact hprev hco
    rw [validateLoop.eq_def]
    simp only [show lexKind c = kind from rfl, if_neg hk, if_pos hbr, if_pos hodd,
      if_neg (show ¬pstack.headD (-1) ≠ kind - 1 from fun hco => hco hprev2)]
    refine ih (fun hm => ?_)
    have hmem := inv hm
    cases pstack with
    | nil => simp at hmem
    | cons a t =>
      simp only [List.headD] at hprev2
      have ha : a ≠ tok.slash := by
        show a ≠ (9 : Int)
        obtain ⟨h1, h2⟩ := hbr
        omega
      rcases List.mem_cons.mp hmem with h | h
      · exact absurd h.symm ha
      · simpa using h
  | case14 pstack mlc ct c cs kind hk ct2 hbr hodd ih =>
    rw [validateLoop.eq_def]
    simp only [show lexKind c = kind from rfl, if_neg hk, if_pos hbr, if_neg hodd]
    exact ih (fun hm => List.mem_cons_of_mem kind (inv hm))
  | case15 pstack mlc ct c cs kind hk ct2 hbr hlit ih =>
    rw [validateLoop.eq_def]
    simp only [show lexKind c = kind from rfl, if_neg hk, if_neg hbr, if_pos hlit]
    exact ih inv
  | case16 pstack mlc ct c cs kind hk ct2 hbr hlit ih =>
    rw [validateLoop.eq_def]
    simp only [show lexKind c = kind from rfl, if_neg hk, if_neg hbr, if_neg hlit]
    exact ih inv

/-- `validate` never fails, whatever the prior state: the derived
`multilineComment` flag establishes the invariant of `validateLoop_isSome`. -/
theorem validate_isSome (st : VState) (line : List Char) :
    (validate st line).isSome := by
  have h := validateLoop_isSome st.m_ParenStack (inBlockComment st)
    (if inBlockComment st then tok.asterik else tok.slash) line
    (fun hm => by simpa [inBlockComment] using hm)
  rw [validate]
  unfold validateScan
  cases hs : validateLoop st.m_ParenStack (inBlockComment st)
      (if inBlockComment st then tok.asterik else tok.slash) line with
  | none => rw [hs] at h; simp at h
  | some p => simp

/-! ## Claims -/

/-- C1: `validate` returns `kMismatch` exactly when the scan loop broke with a
detected bracket mismatch, and that outcome overrides the stack check;
otherwise a non-empty stack yields `kIncomplete` and an empty one
`kComplete` — in particular `kComplete` implies the nesting stack is empty. -/
theorem validate_result_classification (st : VState) (line : List Char)
    (res : ValidationResult) (st2 : VState)
    (h : validate st line = some (res, st2)) :
    ((res = ValidationResult.kMismatch) ↔ scanMismatch st line) ∧
    ((res = ValidationResult.kComplete) ↔
      (¬scanMismatch st line ∧ st2.m_ParenStack = [])) ∧
    ((res = ValidationResult.kIncomplete) ↔
      (¬scanMismatch st line ∧ st2.m_ParenStack ≠ [])) := by
  unfold validate at h
  cases hs : validateScan st line with
  | none => rw [hs] at h; exact absurd h (by simp)
  | some pb =>
    obtain ⟨p, b⟩ := pb
    rw [hs] at h
    have hsm : scanMismatch st line ↔ b = true := by
      unfold scanMismatch
      rw [hs]
      constructor
      · rintro ⟨p2, hp2⟩
        simp only [Option.some.injEq, Prod.mk.injEq] at hp2
        exact hp2.2
      · intro hb
        exact ⟨p, by rw [hb]⟩
    simp only [Option.some.injEq, Prod.mk.injEq] at h
    obtain ⟨hres, hst⟩ := h
    cases b with
    | true =>
      subst hres
      refine ⟨by simp [hsm], ?_, ?_⟩ <;> simp [hsm]
    | false =>
      subst hres
      cases p with
      | nil =>
        refine ⟨?_, ?_, ?_⟩ <;> simp [hsm, ← hst]
      | cons a t =>
        refine ⟨?_, ?_, ?_⟩ <;> simp [hsm, ← hst]

/-- C1 witness: the classification instantiated at a concrete mismatching
line. -/
theorem validate_result_classification_w : scanMismatch initialState [')'] := by
  have h : validate initialState [')'] =
      some (ValidationResult.kMismatch, ⟨[], [')']⟩) := by
    simp [validate, validateScan, validateLoop, inBlockComment, initialState, appendInput,
      lexKind, nextCommentTok, tok.l_square, tok.r_square, tok.l_paren, tok.r_paren,
      tok.l_brace, tok.r_brace, tok.stringlit, tok.charlit, tok.slash, tok.asterik,
      tok.hash, tok.unknown]
  exact (validate_result_classification initialState [')'] ValidationResult.kMismatch
    ⟨[], [')']⟩ h).1.mp rfl

/-- C2: a closing bracket scanned while not inside a block comment, with the
stack empty or its top not the corresponding opener, stops the loop at once
with the mismatch flag set and the stack untouched; the scan-level mismatch
always surfaces as `kMismatch` from `validate`; and `")"` on a fresh
instance returns `kMismatch`. -/
theorem validate_mismatch_on_bad_closer :
    (∀ (pstack : List Int) (ct : Int) (cs : List Char) (c : Char),
      (ct = tok.slash ∨ ct = tok.asterik) →
      (lexKind c = tok.r_square ∨ lexKind c = tok.r_paren ∨ lexKind c = tok.r_brace) →
      pstack.headD (-1) ≠ lexKind c - 1 →
      validateLoop pstack false ct (c :: cs) = some (pstack, true)) ∧
    (∀ (st : VState) (line : List Char) (p : List Int),
      validateScan st line = some (p, true) →
      validate st line =
        some (ValidationResult.kMismatch, ⟨p, appendInput st.m_Input p line⟩)) ∧
    validate initialState [')'] = some (ValidationResult.kMismatch, ⟨[], [')']⟩) := by
  refine ⟨?_, ?_, ?_⟩
  · intro pstack ct cs c hct hc hprev
    rcases hc with hc | hc | hc <;> rcases hct with hct | hct <;>
      · subst hct
        rw [hc] at hprev
        norm_num [tok.r_square, tok.r_paren, tok.r_brace] at hprev
        rw [validateLoop.eq_def]
        simp [hc, hprev, nextCommentTok, tok.l_square, tok.r_square, tok.l_paren,
          tok.r_paren, tok.l_brace, tok.r_brace, tok.stringlit, tok.charlit, tok.slash,
          tok.asterik, tok.hash, tok.unknown]
  · intro st line p hs
    unfold validate
    rw [hs]
    simp
  · simp [validate, validateScan, validateLoop, inBlockComment, initialState, appendInput,
      lexKind, nextCommentTok, tok.l_square, tok.r_square, tok.l_paren, tok.r_paren,
      tok.l_brace, tok.r_brace, tok.stringlit, tok.charlit, tok.slash, tok.asterik,
      tok.hash, tok.unknown]

/-- C2 witness: the step-level fact applied at a concrete bad closer on a
non-empty rest of line, confirming the rest is not examined. -/
theorem validate_mismatch_on_bad_closer_w :
    validateLoop [] false tok.slash [')', '('] = some ([], true) :=
  validate_mismatch_on_bad_closer.1 [] tok.slash ['('] ')' (Or.inl rfl)
    (Or.inr (Or.inl (by decide))) (by decide)

/-- C7: validate never hits the `unwindTokens` empty-stack assertion (every
call site runs with the in-block-comment marker on the stack), and under that
precondition `unwindTokens` pops exactly the entries above the topmost marker
plus the marker itself, leaving the entries below unchanged. -/
theorem unwind_calls_safe :
    (∀ (st : VState) (line : List Char), (validate st line).isSome) ∧
    (∀ (junk rest : List Int), tok.slash ∉ junk →
      unwindTokens (junk ++ tok.slash :: rest) tok.slash = some rest) :=
  ⟨validate_isSome, fun _ _ h => unwindTokens_append h⟩

/-- C7 witness: the unwind contract applied to a concrete stack with one
bracket above and one below the marker. -/
theorem unwind_calls_safe_w :
    unwindTokens ([tok.l_brace] ++ tok.slash :: [tok.l_paren]) tok.slash =
      some [tok.l_paren] :=
  unwind_calls_safe.2 [tok.l_brace] [tok.l_paren] (by decide)

/-- C9: `reset` restores exactly the freshly-constructed state, so a
subsequent `validate` call returns the same result and leaves the same
observable state as on a fresh instance, whatever happened before. -/
theorem reset_equals_fresh (st : VState) (line : List Char) :
    reset st = initialState ∧ validate (reset st) line = validate initialState line :=
  ⟨rfl, rfl⟩

/-- C10: the state change on `kMismatch` is not atomic: the buffer is appended
with the offending line in every case (regardless of the result), and after
`"(]"` on a fresh instance the `(` pushed before the offending `]` is still on
the stack and the rejected line is in the buffer. -/
theorem mismatch_not_atomic :
    (∀ (st : VState) (line : List Char) (res : ValidationResult) (st2 : VState),
      validate st line = some (res, st2) →
      st2.m_Input = appendInput st.m_Input st2.m_ParenStack line) ∧
    validate initialState ['(', ']'] =
      some (ValidationResult.kMismatch, ⟨[tok.l_paren], ['(', ']']⟩) := by
  constructor
  · intro st line res st2 h
    unfold validate at h
    cases hs : validateScan st line with
    | none => rw [hs] at h; exact absurd h (by simp)
    | some pb =>
      obtain ⟨p, b⟩ := pb
      rw [hs] at h
      simp only [Option.some.injEq, Prod.mk.injEq] at h
      rw [← h.2]
  · simp [validate, validateScan, validateLoop, inBlockComment, initialState, appendInput,
      lexKind, nextCommentTok, tok.l_square, tok.r_square, tok.l_paren, tok.r_paren,
      tok.l_brace, tok.r_brace, tok.stringlit, tok.charlit, tok.slash, tok.asterik,
      tok.hash, tok.unknown]

/-- C10 witness: the buffer-append fact discharged at the concrete mismatching
call. -/
theorem mismatch_not_atomic_w :
    (⟨[tok.l_paren], ['(', ']']⟩ : VState).m_Input =
      appendInput initialState.m_Input [tok.l_paren] ['(', ']'] :=
  mismatch_not_atomic.1 initialState ['(', ']'] ValidationResult.kMismatch
    ⟨[tok.l_paren], ['(', ']']⟩ mismatch_not_atomic.2

/-- C3: confirming a `*/` close while inside a block comment pops the topmost
in-block-comment marker together with everything pushed above it, leaving the
entries below for the rest of the scan; and `"{ /* { */ }"` on a fresh
instance returns `kComplete` — the brace opened textually inside the comment
does not affect the matching of the outer brace. -/
theorem comment_close_unwinds :
    (∀ (junk rest : List Int) (cs : List Char), tok.slash ∉ junk →
      validateLoop (junk ++ tok.slash :: rest) true tok.slash ('/' :: cs) =
        validateLoop rest false tok.slash cs) ∧
    validate initialState ['\x7b', ' ', '/', '*', ' ', '\x7b', ' ', '*', '/', ' ', '\x7d'] =
      some (ValidationResult.kComplete,
        ⟨[], ['\x7b', ' ', '/', '*', ' ', '\x7b', ' ', '*', '/', ' ', '\x7d']⟩) := by
  constructor
  · intro junk rest cs hj
    rw [validateLoop.eq_def]
    simp [lexKind, tok.slash]
    rw [show unwindTokens (junk ++ (9 : Int) :: rest) 9 = some rest from unwindTokens_append hj]
  · simp [validate, validateScan, validateLoop, inBlockComment, initialState, appendInput,
      lexKind, nextCommentTok, unwindTokens, findNestedBlockComments, fnbcBack,
      tok.l_square, tok.r_square, tok.l_paren, tok.r_paren, tok.l_brace, tok.r_brace,
      tok.stringlit, tok.charlit, tok.slash, tok.asterik, tok.hash, tok.unknown]

/-- C3 witness: the unwind-on-close fact applied to a concrete stack holding a
brace below the marker and a brace pushed inside the comment above it. -/
theorem comment_close_unwinds_w :
    validateLoop ([tok.l_brace] ++ tok.slash :: [tok.l_paren]) true tok.slash ['/'] =
      validateLoop [tok.l_paren] false tok.slash [] :=
  comment_close_unwinds.1 [tok.l_brace] [tok.l_paren] [] (by decide)

/-- C4 counterexample: contrary to the claim that no partial digraph survives
an unrelated token, a `/` followed by an unrelated character and then `*`
does open a block comment: `"/a*"` on a fresh instance leaves the
in-block-comment marker on the stack and reports `kIncomplete`. -/
theorem digraph_cursor_no_reset_cex :
    validate initialState ['/', 'a', '*'] =
      some (ValidationResult.kIncomplete, ⟨[tok.slash], ['/', 'a', '*']⟩) ∧
    inBlockComment ⟨[tok.slash], ['/', 'a', '*']⟩ = true := by
  constructor
  · simp [validate, validateScan, validateLoop, inBlockComment, initialState, appendInput,
      lexKind, nextCommentTok, findNestedBlockComments, fnbcBack,
      tok.l_square, tok.r_square, tok.l_paren, tok.r_paren, tok.l_brace, tok.r_brace,
      tok.stringlit, tok.charlit, tok.slash, tok.asterik, tok.hash, tok.unknown]
  · decide

/-- C4 as amended: only the in-comment half of the claim holds.  Inside a
block comment a pending `*` (awaiting the closing `/`) is cancelled by any
token that is not an asterisk; but outside a comment, once a `/` has been
seen the cursor keeps expecting `*` for the rest of the line across unrelated
tokens, and a later `*` then opens a block comment. -/
theorem digraph_cursor_behavior :
    (∀ (pstack : List Int) (cs : List Char) (c : Char), lexKind c = tok.unknown →
      validateLoop pstack true tok.slash (c :: cs) =
        validateLoop pstack true tok.asterik cs) ∧
    (∀ (pstack : List Int) (cs : List Char) (c : Char), lexKind c = tok.unknown →
      validateLoop pstack false tok.asterik (c :: cs) =
        validateLoop pstack false tok.asterik cs) ∧
    (∀ (pstack : List Int) (cs : List Char),
      validateLoop pstack false tok.asterik ('*' :: cs) =
        validateLoop (tok.slash :: pstack) true tok.asterik cs) := by
  refine ⟨?_, ?_, ?_⟩
  · intro pstack cs c hc
    rw [validateLoop.eq_def]
    simp [hc, nextCommentTok, tok.slash, tok.asterik, tok.unknown, tok.stringlit, tok.charlit]
  · intro pstack cs c hc
    rw [validateLoop.eq_def]
    simp [hc, nextCommentTok, tok.slash, tok.asterik, tok.unknown, tok.stringlit, tok.charlit]
  · intro pstack cs
    rw [validateLoop.eq_def]
    simp [lexKind, tok.slash, tok.asterik]

/-- C4 amended witness: both digraph-cursor facts discharged at the concrete
unrelated character `a`. -/
theorem digraph_cursor_behavior_w :
    validateLoop [] true tok.slash ['a'] = validateLoop [] true tok.asterik [] ∧
    validateLoop [] false tok.asterik ['a'] = validateLoop [] false tok.asterik [] :=
  ⟨digraph_cursor_behavior.1 [] [] 'a' (by decide),
   digraph_cursor_behavior.2.1 [] [] 'a' (by decide)⟩

/-- C5 counterexample: a bracket scanned while inside a block comment does
touch the nesting stack: `"/*("` on a fresh instance leaves the opened paren
on the stack above the in-block-comment marker, so the stack is not the
one-marker stack the claim predicts. -/
theorem brackets_in_comment_cex :
    validate initialState ['/', '*', '('] =
      some (ValidationResult.kIncomplete, ⟨[tok.l_paren, tok.slash], ['/', '*', '(']⟩) ∧
    ([tok.l_paren, tok.slash] : List Int) ≠ [tok.slash] := by
  constructor
  · simp [validate, validateScan, validateLoop, inBlockComment, initialState, appendInput,
      lexKind, nextCommentTok, findNestedBlockComments, fnbcBack,
      tok.l_square, tok.r_square, tok.l_paren, tok.r_paren, tok.l_brace, tok.r_brace,
      tok.stringlit, tok.charlit, tok.slash, tok.asterik, tok.hash, tok.unknown]
  · decide

/-- C5 as amended: a bracket processed while inside a block comment may push
onto or pop from the junk above the topmost in-block-comment marker, but it
never breaks with a mismatch and never touches the marker or the entries
below it, so it cannot affect matching outside the comment. -/
theorem brackets_in_comment_above_marker :
    ∀ (below junk : List Int) (ct : Int) (c : Char) (cs : List Char),
      (ct = tok.slash ∨ ct = tok.asterik) → tok.slash ∉ junk →
      (0 ≤ lexKind c ∧ lexKind c ≤ 5) →
      ∃ junk2, tok.slash ∉ junk2 ∧
        validateLoop (junk ++ tok.slash :: below) true ct (c :: cs) =
          validateLoop (junk2 ++ tok.slash :: below) true tok.asterik cs := by
  intro below junk ct c cs hct hj hbr
  have hkct : lexKind c ≠ ct := by
    rcases hct with h | h <;> subst h <;>
      simp only [tok.slash, tok.asterik] <;> omega
  have hct2 : nextCommentTok true ct (lexKind c) = tok.asterik := by
    rcases hct with h | h <;> subst h
    · simp only [nextCommentTok, tok.slash, tok.asterik]
      rw [if_pos ⟨trivial, trivial, by omega⟩]
    · simp [nextCommentTok, tok.slash, tok.asterik]
  rw [validateLoop.eq_def]
  by_cases hodd : lexKind c % 2 = 1
  · rcases junk with _ | ⟨a, t⟩
    · refine ⟨[], hj, ?_⟩
      have hhead : (([] : List Int) ++ tok.slash :: below).headD (-1) ≠ lexKind c - 1 := by
        simp only [List.nil_append, List.headD]
        show (9 : Int) ≠ lexKind c - 1
        omega
      simp only [if_neg hkct, hct2, if_pos hbr, if_pos hodd, if_pos hhead, if_true]
    · by_cases hmatch : a = lexKind c - 1
      · refine ⟨t, fun hm => hj (List.mem_cons_of_mem a hm), ?_⟩
        have hhead : ¬(((a :: t) ++ tok.slash :: below).headD (-1) ≠ lexKind c - 1) := by
          simp only [List.cons_append, List.headD]
          exact fun hco => hco hmatch
        simp only [if_neg hkct, hct2, if_pos hbr, if_pos hodd, if_neg hhead]
        simp only [List.cons_append, List.tail_cons]
      · refine ⟨a :: t, hj, ?_⟩
        have hhead : ((a :: t) ++ tok.slash :: below).headD (-1) ≠ lexKind c - 1 := by
          simp only [List.cons_append, List.headD]
          exact hmatch
        simp only [if_neg hkct, hct2, if_pos hbr, if_pos hodd, if_pos hhead, if_true]
  · refine ⟨lexKind c :: junk, ?_, ?_⟩
    · intro hm
      rcases List.mem_cons.mp hm with h | h
      · have h9 : (9 : Int) = lexKind c := h
        omega
      · exact hj h
    · simp only [if_neg hkct, hct2, if_pos hbr, if_neg hodd, List.cons_append]

/-- C5 amended witness: the fact discharged at a concrete opening paren inside
a comment over an empty surrounding stack. -/
theorem brackets_in_comment_above_marker_w :
    ∃ junk2, tok.slash ∉ junk2 ∧
      validateLoop ([] ++ tok.slash :: []) true tok.asterik ['('] =
        validateLoop (junk2 ++ tok.slash :: []) true tok.asterik [] :=
  brackets_in_comment_above_marker [] [] tok.asterik '(' [] (Or.inr rfl) (by decide)
    (by decide)

/-- Follows the spec's words (testable property: "for all single-line inputs
with balanced ()[]\x7b\x7d and no comments/literals, validate returns Complete and
the stack ends empty"): the standard bracket matcher over one line.  The
matcher stack holds the expected closers; non-bracket characters are ignored
and each closer must match the most recently opened bracket. -/
def specMatch : List Char → List Char → Option (List Char)
  | [], s => some s
  | c :: cs, s =>
    if c = '(' then specMatch cs (')' :: s)
    else if c = '[' then specMatch cs (']' :: s)
    else if c = '\x7b' then specMatch cs ('\x7d' :: s)
    else if c = ')' ∨ c = ']' ∨ c = '\x7d' then
      match s with
      | [] => none
      | t :: s2 => if t = c then specMatch cs s2 else none
    else specMatch cs s

/-- The opener kind that the validator pushes for the bracket whose expected
closer is `t` on the spec-side matcher stack. -/
def closerOpenerKind (t : Char) : Int :=
  if t = ')' then tok.l_paren
  else if t = ']' then tok.l_square
  else tok.l_brace

/-- Simulation: on a line without comment or literal characters the validator
loop tracks the spec-side bracket matcher exactly, the nesting stack being the
image of the matcher stack under `closerOpenerKind`. -/
theorem specMatch_sim : ∀ (cs s r : List Char),
    (∀ c ∈ cs, c ≠ '/' ∧ c ≠ '*' ∧ c ≠ '"' ∧ c ≠ '\'') →
    (∀ t ∈ s, t = ')' ∨ t = ']' ∨ t = '\x7d') →
    specMatch cs s = some r →
    validateLoop (s.map closerOpenerKind) false tok.slash cs =
      some (r.map closerOpenerKind, false) := by
  intro cs
  induction cs with
  | nil =>
    intro s r hplain hwf hsm
    simp only [specMatch, Option.some.injEq] at hsm
    subst hsm
    rw [validateLoop.eq_def]
    simp
  | cons c cs ih =>
    intro s r hplain hwf hsm
    obtain ⟨hc1, hc2, hc3, hc4⟩ := hplain c (List.mem_cons_self c cs)
    have hplain2 : ∀ x ∈ cs, x ≠ '/' ∧ x ≠ '*' ∧ x ≠ '"' ∧ x ≠ '\'' :=
      fun x hx => hplain x (List.mem_cons_of_mem c hx)
    by_cases hlp : c = '('
    · subst hlp
      simp only [specMatch, reduceIte] at hsm
      rw [validateLoop.eq_def]
      have hr := ih (')' :: s) r hplain2
        (fun t ht => (List.mem_cons.mp ht).elim (fun h => Or.inl h) (hwf t)) hsm
      simp [lexKind, nextCommentTok, tok.l_square, tok.r_square, tok.l_paren, tok.r_paren,
        tok.l_brace, tok.r_brace, tok.stringlit, tok.charlit, tok.slash, tok.asterik]
      simpa [closerOpenerKind, tok.l_paren, tok.slash] using hr
    · by_cases hlsq : c = '['
      · subst hlsq
        simp only [specMatch, reduceIte] at hsm
        rw [validateLoop.eq_def]
        have hr := ih (']' :: s) r hplain2
          (fun t ht => (List.mem_cons.mp ht).elim (fun h => Or.inr (Or.inl h)) (hwf t)) hsm
        simp [lexKind, nextCommentTok, tok.l_square, tok.r_square, tok.l_paren, tok.r_paren,
          tok.l_brace, tok.r_brace, tok.stringlit, tok.charlit, tok.slash, tok.asterik]
        simpa [closerOpenerKind, tok.l_square, tok.slash] using hr
      · by_cases hlb : c = '\x7b'
        · subst hlb
          simp only [specMatch, reduceIte] at hsm
          rw [validateLoop.eq_def]
          have hr := ih ('\x7d' :: s) r hplain2
            (fun t ht => (List.mem_cons.mp ht).elim (fun h => Or.inr (Or.inr h)) (hwf t)) hsm
          simp [lexKind, nextCommentTok, tok.l_square, tok.r_square, tok.l_paren,
            tok.r_paren, tok.l_brace, tok.r_brace, tok.stringlit, tok.charlit, tok.slash,
            tok.asterik]
          simpa [closerOpenerKind, tok.l_brace, tok.slash] using hr
        · by_cases hcl : c = ')' ∨ c = ']' ∨ c = '\x7d'
          · cases s with
            | nil =>
              rcases hcl with h | h | h <;> subst h <;> simp [specMatch] at hsm
            | cons t s2 =>
              have htw := hwf t (List.mem_cons_self t s2)
              by_cases ht : t = c
              · subst ht
                have hwf2 : ∀ x ∈ s2, x = ')' ∨ x = ']' ∨ x = '\x7d' :=
                  fun x hx => hwf x (List.mem_cons_of_mem t hx)
                have hr := ih s2 r hplain2 hwf2
                rcases hcl with h | h | h <;> subst h <;>
                  · simp only [specMatch, reduceIte] at hsm
                    rw [validateLoop.eq_def]
                    simp [lexKind, nextCommentTok, closerOpenerKind, tok.l_square,
                      tok.r_square, tok.l_paren, tok.r_paren, tok.l_brace, tok.r_brace,
                      tok.stringlit, tok.charlit, tok.slash, tok.asterik]
                    simpa [closerOpenerKind, tok.l_square, tok.l_paren, tok.l_brace,
                      tok.slash] using hr hsm
              · rcases hcl with h | h | h <;> subst h <;>
                  simp [specMatch, ht] at hsm
          · have hrp : ¬c = ')' := fun h => hcl (Or.inl h)
            have hrsq : ¬c = ']' := fun h => hcl (Or.inr (Or.inl h))
            have hrb : ¬c = '\x7d' := fun h => hcl (Or.inr (Or.inr h))
            have hsm2 : specMatch cs s = some r := by
              simpa [specMatch, hlp, hlsq, hlb, hcl] using hsm
            have hlk : lexKind c = tok.hash ∨ lexKind c = tok.unknown := by
              simp only [lexKind, if_neg hlsq, if_neg hrsq, if_neg hlp, if_neg hrp,
                if_neg hlb, if_neg hrb, if_neg hc3, if_neg hc4, if_neg hc1, if_neg hc2]
              by_cases hh : c = '#'
              · exact Or.inl (by rw [if_pos hh])
              · exact Or.inr (by rw [if_neg hh])
            have hr := ih s r hplain2 hwf hsm2
            rcases hlk with hlk | hlk <;>
              · rw [validateLoop.eq_def]
                simp [hlk, nextCommentTok, tok.l_square, tok.r_square, tok.l_paren,
                  tok.r_paren, tok.l_brace, tok.r_brace, tok.stringlit, tok.charlit,
                  tok.slash, tok.asterik, tok.hash, tok.unknown]
                simpa [tok.slash] using hr

/-- C8: any single line whose characters contain no comment or literal
characters and whose brackets balance in the standard sense is accepted as
`kComplete` by a fresh validator, with the nesting stack left empty and the
line in the buffer. -/
theorem balanced_plain_line_complete (cs : List Char)
    (hplain : ∀ c ∈ cs, c ≠ '/' ∧ c ≠ '*' ∧ c ≠ '"' ∧ c ≠ '\'')
    (hbal : specMatch cs [] = some []) :
    validate initialState cs = some (ValidationResult.kComplete, ⟨[], cs⟩) := by
  have hsim : validateLoop [] false tok.slash cs = some ([], false) := by
    simpa using specMatch_sim cs [] [] hplain (by simp) hbal
  unfold validate validateScan
  simp [initialState, inBlockComment, hsim, appendInput]

/-- C8 witness: the theorem discharged at the concrete balanced plain line
`"f();"`. -/
theorem balanced_plain_line_complete_w :
    validate initialState ['f', '(', ')', ';'] =
      some (ValidationResult.kComplete, ⟨[], ['f', '(', ')', ';']⟩) :=
  balanced_plain_line_complete ['f', '(', ')', ';'] (by decide) (by decide)

/-- C6 (code bug): the escaped-newline join never happens.  The literal-open
branch of validate (lines 171-173) only advances the lexer and never pushes
`tok::stringlit`/`tok::charlit`, and no other path pushes them either, so the
condition guarding the `"\\n"` append (lines 182-184) is never true.  The
spec's own two-line literal example joins with a real newline: after
`int x = "a` (string left open) and then `b";` the logical buffer holds the
two lines separated by a plain `'\n'`. -/
theorem literal_join_uses_real_newline :
    validate initialState ['i', 'n', 't', ' ', 'x', ' ', '=', ' ', '"', 'a'] =
      some (ValidationResult.kComplete,
        ⟨[], ['i', 'n', 't', ' ', 'x', ' ', '=', ' ', '"', 'a']⟩) ∧
    validate ⟨[], ['i', 'n', 't', ' ', 'x', ' ', '=', ' ', '"', 'a']⟩ ['b', '"', ';'] =
      some (ValidationResult.kComplete,
        ⟨[], ['i', 'n', 't', ' ', 'x', ' ', '=', ' ', '"', 'a', '\n', 'b', '"', ';']⟩) ∧
    (['i', 'n', 't', ' ', 'x', ' ', '=', ' ', '"', 'a', '\n', 'b', '"', ';'] ≠
      ['i', 'n', 't', ' ', 'x', ' ', '=', ' ', '"', 'a', '\\', 'n', 'b', '"', ';']) := by
  refine ⟨?_, ?_, by decide⟩ <;>
    simp [validate, validateScan, validateLoop, inBlockComment, appendInput, lexKind,
      nextCommentTok, quoteChar, lexQuotedStringAndAdvance, tok.l_square, tok.r_square,
      tok.l_paren, tok.r_paren, tok.l_brace, tok.r_brace, tok.stringlit, tok.charlit,
      tok.slash, tok.asterik, tok.hash, tok.unknown, initialState]

end Cling
